import Mathlib

/-!
Verification of the rust_ping measurement and reporting pipeline.

This file shallowly embeds the parts of `src/main.rs` that the specification
talks about: the ICMP checksum (`checksum`, lines 86-104), packet construction
(`create_icmp_packet`, lines 106-120), the probe loop of `ping` (lines
517-590), the statistics engine (`calculate_statistics`, lines 323-359), the
histogram bucketing of `draw_histogram` (lines 279-291), and the serde-derived
JSON field layout of `PingResult` / `PingStatistics` (lines 51-72).

Machine integers are modelled as `Nat` with explicit `% 2^w` where wrap-around
matters; `f64` values are modelled exactly as `ℚ` (and the one square root the
code takes, in `calculate_statistics`, as a real number), with `f64::round`
(ties away from zero) modelled by `fround`.
-/

/-! ## Packet Codec: checksum (src/main.rs lines 86-104)

The Rust loop sums 16-bit big-endian words (`u16::from_be_bytes([data[i],
data[i+1]])`) over consecutive byte pairs while `i < data.len() - 1`, then, for
odd-length input, adds the trailing byte shifted into the high half
(`(data[last] as u32) << 8`).  `wordSum` is the structural rendering of that
sum; `foldCarries` is the carry-fold loop `while (sum >> 16) > 0 { sum = (sum &
0xFFFF) + (sum >> 16) }` with `& 0xFFFF` written `% 65536` and `>> 16` written
`/ 65536`; the final `!sum as u16` is bitwise complement of a `u32` truncated
to 16 bits, i.e. `(4294967295 - sum) % 65536`. -/

/-- Sum of 16-bit big-endian words of a byte list, an odd trailing byte padded
with a zero low byte, exactly as the summation loop of `checksum` computes it
(the accumulator is a `u32` in the source; for the 64-byte buffers the program
builds the sum is far below `2^32`, so plain `Nat` is faithful). -/
def wordSum : List Nat → Nat
  | [] => 0
  | [b] => b * 256
  | b1 :: b2 :: rest => (b1 * 256 + b2) + wordSum rest

/-- The carry-fold loop of `checksum`: while the high half is nonzero, add it
back into the low half. -/
def foldCarries (s : Nat) : Nat :=
  if h : 0 < s / 65536 then foldCarries (s % 65536 + s / 65536) else s
termination_by s
decreasing_by omega

/-- `checksum` of src/main.rs lines 86-104: fold the word sum, then complement
the low 16 bits (`!sum as u16`). -/
def checksum (data : List Nat) : Nat :=
  (4294967295 - foldCarries (wordSum data)) % 65536

/-- `packet.set_checksum cs` of `create_icmp_packet`: pnet writes the 16-bit
checksum big-endian at byte offset 2 of the ICMP buffer. -/
def set_checksum (data : List Nat) (cs : Nat) : List Nat :=
  (data.set 2 (cs / 256)).set 3 (cs % 256)

/-! ## Packet Codec: `create_icmp_packet` (src/main.rs lines 106-120) and the
panic behaviour of the `checksum` summation loop (C10).

The Rust loop runs `while i < data.len() - 1` with `i: usize`; on an empty
slice `data.len() - 1` is a `usize` underflow (a panic in debug builds; in
release builds it wraps to `2^64 - 1` and the first iteration's `data[0]`
access panics out of bounds).  `wordLoopGo` models the loop with checked
indexing (`Option`), and `checksumRun` models the whole function with the
wrapping bound `(len + 2^64 - 1) % 2^64`; `none` is the panic outcome. -/

/-- The summation loop of `checksum` with its `usize` bound and checked
indexing: iterates `i` by 2 while `i < bound`, reading `data[i]` and
`data[i+1]`; an out-of-range read is a panic, modelled as `none`. -/
def wordLoopGo (data : List Nat) (bound i sum : Nat) : Option Nat :=
  if i < bound then
    match data.get? i, data.get? (i + 1) with
    | some b1, some b2 => wordLoopGo data bound (i + 2) (sum + (b1 * 256 + b2))
    | _, _ => none
  else
    some sum
termination_by bound - i
decreasing_by omega

/-- The whole `checksum` function with machine (`usize`-wrapping) loop bound
and checked indexing; returns `none` exactly when the Rust function panics. -/
def checksumRun (data : List Nat) : Option Nat :=
  (wordLoopGo data ((data.length + 18446744073709551615) % 18446744073709551616) 0 0).bind
    (fun s0 =>
      (if data.length % 2 = 1 then
          (data.get? (data.length - 1)).map (fun b => s0 + b * 256)
        else some s0).map
        (fun s => (4294967295 - foldCarries s) % 65536))

/-- The word sum accumulated by the pair loop alone (ignoring a trailing odd
byte): what `wordLoopGo` computes when it terminates normally. -/
def evenSum : List Nat → Nat
  | [] => 0
  | [_] => 0
  | b1 :: b2 :: rest => (b1 * 256 + b2) + evenSum rest

/-- The 64-byte ICMP echo-request buffer of `create_icmp_packet` before the
checksum is written: type 8, code 0, zero checksum, big-endian identifier and
sequence, the ASCII payload "RustPing!", zero padding up to 64 bytes. -/
def icmp_prechecksum (sequence identifier : Nat) : List Nat :=
  [8, 0, 0, 0, identifier / 256 % 256, identifier % 256,
    sequence / 256 % 256, sequence % 256] ++
  [82, 117, 115, 116, 80, 105, 110, 103, 33] ++ List.replicate 47 0

/-- `create_icmp_packet` (src/main.rs lines 106-120): compute the checksum
over the zero-checksum buffer and write it at offset 2. -/
def create_icmp_packet (sequence identifier : Nat) : List Nat :=
  set_checksum (icmp_prechecksum sequence identifier)
    (checksum (icmp_prechecksum sequence identifier))

/-! ## Statistics Engine: `calculate_statistics` (src/main.rs lines 323-359)

`f64` values are modelled exactly as rationals; the one square root the code
takes (`variance.sqrt()`) is modelled as the exact real square root, so the
`std_dev_ms` field lives in `ℝ`.  `f64::round` rounds half away from zero;
`fround` models it on any linear ordered field with a floor. -/

/-- `f64::round`: round to the nearest integer, ties away from zero. -/
def fround {α : Type} [LinearOrderedField α] [FloorRing α] (x : α) : ℤ :=
  if 0 ≤ x then ⌊x + 1 / 2⌋ else ⌈x - 1 / 2⌉

/-- The idiom `(x * 100.0).round() / 100.0`: round to two decimal places. -/
def roundTo2 {α : Type} [LinearOrderedField α] [FloorRing α] (x : α) : α :=
  (fround (x * 100) : α) / 100

/-- `times.iter().cloned().fold(f64::INFINITY, f64::min)`: on a nonempty list
the infinite seed is absorbed by the first element, so the fold equals folding
`min` from the head; the empty case is unreachable (guarded by
`times.is_empty()` in the source) and mapped to `0`. -/
def listMin : List ℚ → ℚ
  | [] => 0
  | t :: ts => ts.foldl min t

/-- `times.iter().cloned().fold(f64::NEG_INFINITY, f64::max)`, analogously. -/
def listMax : List ℚ → ℚ
  | [] => 0
  | t :: ts => ts.foldl max t

/-- The `PingStatistics` struct (src/main.rs lines 62-72). -/
structure PingStatistics where
  min_ms : Option ℚ
  max_ms : Option ℚ
  avg_ms : Option ℚ
  std_dev_ms : Option ℝ
  packets_sent : ℕ
  packets_received : ℕ
  packets_lost : ℕ
  packet_loss_percent : ℚ

/-- `calculate_statistics` (src/main.rs lines 323-359): min, max, mean,
population standard deviation of the successful RTTs, and the packet
counters.  `failed = total - successful` is `u32` subtraction; the
configuration contract guarantees `successful ≤ total`, under which `Nat`
subtraction coincides with it. -/
noncomputable def calculate_statistics (times : List ℚ) (total : ℕ) : PingStatistics :=
  let successful := times.length
  let failed := total - successful
  if times.isEmpty then
    { min_ms := none, max_ms := none, avg_ms := none, std_dev_ms := none,
      packets_sent := total, packets_received := successful,
      packets_lost := failed, packet_loss_percent := 100 }
  else
    let mn := listMin times
    let mx := listMax times
    let avg : ℚ := times.sum / times.length
    let variance : ℚ := ((times.map (fun t => (t - avg) ^ 2)).sum) / times.length
    let std_dev : ℝ := Real.sqrt (variance : ℝ)
    { min_ms := some (roundTo2 mn), max_ms := some (roundTo2 mx),
      avg_ms := some (roundTo2 avg), std_dev_ms := some (roundTo2 std_dev),
      packets_sent := total, packets_received := successful,
      packets_lost := failed,
      packet_loss_percent := roundTo2 ((failed : ℚ) / (total : ℚ) * 100) }

/-! ## Probe Loop: the `for seq in 0..count` loop of `ping`
(src/main.rs lines 517-590)

Each iteration builds a packet, sends it, and classifies the outcome.  The
environment (what the network does at each sequence number) is a function
`Nat → ProbeOutcome`; a received reply is a `RawReply` carrying the ICMP
identifier and sequence number found in the reply packet together with the
elapsed time at receipt.  The source binds the received packet as `_` in
`Ok(Some((_, reply_addr)))` (line 537): the reply's identifier and sequence
number are never inspected, which the step function reproduces. -/

/-- A raw ICMP packet handed back by `next_with_timeout`: its protocol
identifier and sequence number, and the elapsed wall time at receipt in
milliseconds. -/
structure RawReply where
  ident : ℕ
  seqNo : ℕ
  rtt : ℚ
deriving DecidableEq

/-- What the transport does for one probe: `send_to` fails (`Err` on line
522), a reply arrives (`Ok(Some(..))`), the wait times out (`Ok(None)`), or
`next_with_timeout` fails (`Err` on line 576). -/
inductive ProbeOutcome where
  | sendErr
  | reply (r : RawReply)
  | timeout
  | recvErr
deriving DecidableEq

/-- The `PingResult` struct (src/main.rs lines 51-59). -/
structure PingResult where
  seq : ℕ
  rtt_ms : Option ℚ
  success : Bool
  timestamp : Option String
deriving DecidableEq

/-- The loop-carried state of `ping`: the `results` vector, the raw `times`
vector, and the bar-scale accumulator `max_rtt_estimate` (seeded with `50.0`
on line 498). -/
structure LoopState where
  results : List PingResult
  times : List ℚ
  max_rtt_estimate : ℚ
deriving DecidableEq

/-- One iteration of the probe loop (src/main.rs lines 522-585), given the
formatted timestamp `ts` taken at the top of the iteration.  On a reply the
code pushes the raw RTT into `times`, the two-decimal rounding into
`results`, and grows the bar scale to `max(max_rtt_estimate, rtt * 1.2)`;
the reply packet itself is discarded, so no identifier or sequence check
occurs.  Send errors, timeouts and receive errors each record a failed
result and leave `times` and the bar scale unchanged. -/
def pingStep (ts : String) (seq : ℕ) (o : ProbeOutcome) (st : LoopState) : LoopState :=
  match o with
  | .sendErr =>
      { st with results := st.results ++
          [{ seq := seq, rtt_ms := none, success := false, timestamp := some ts }] }
  | .reply r =>
      { results := st.results ++
          [{ seq := seq, rtt_ms := some (roundTo2 r.rtt), success := true,
             timestamp := some ts }],
        times := st.times ++ [r.rtt],
        max_rtt_estimate := max st.max_rtt_estimate (r.rtt * (6 / 5)) }
  | .timeout =>
      { st with results := st.results ++
          [{ seq := seq, rtt_ms := none, success := false, timestamp := some ts }] }
  | .recvErr =>
      { st with results := st.results ++
          [{ seq := seq, rtt_ms := none, success := false, timestamp := some ts }] }

/-- The whole probe loop of `ping`: `identifier` is the process id truncated
to `u16` (line 492); it is stamped into the outgoing packets but, as in the
source, plays no part in classifying replies. -/
def pingLoop (identifier : ℕ) (env : ℕ → ProbeOutcome) (tsEnv : ℕ → String)
    (count : ℕ) : LoopState :=
  (List.range count).foldl (fun st s => pingStep (tsEnv s) s (env s) st)
    { results := [], times := [], max_rtt_estimate := 50 }

/-- The single `PingResult` a loop iteration appends, by outcome. -/
def resultOf (ts : String) (seq : ℕ) (o : ProbeOutcome) : PingResult :=
  match o with
  | .sendErr => { seq := seq, rtt_ms := none, success := false, timestamp := some ts }
  | .reply r => { seq := seq, rtt_ms := some (roundTo2 r.rtt), success := true,
                  timestamp := some ts }
  | .timeout => { seq := seq, rtt_ms := none, success := false, timestamp := some ts }
  | .recvErr => { seq := seq, rtt_ms := none, success := false, timestamp := some ts }

/-! ## Presentation Layer: the bar-scale accumulator (C7) and the latency
histogram (C9). -/

/-- The evolution of `max_rtt_estimate` over the successful RTTs of a run:
seeded with `50.0` (line 498) and grown by `max_rtt_estimate =
max_rtt_estimate.max(rtt * 1.2)` (line 549) at each success. -/
def dynMax (rtts : List ℚ) : ℚ :=
  rtts.foldl (fun m r => max m (r * (6 / 5))) 50

/-- The largest finite `f64`, `f64::MAX = 2^1024 - 2^971`: the upper bound of
the last histogram bucket in `draw_histogram` (line 284). -/
def f64MAX : ℚ := 2 ^ 1024 - 2 ^ 971

/-- One bucket count of `draw_histogram` (line 290):
`times.iter().filter(|t| t >= min && t < max).count()`. -/
def bucketCount (times : List ℚ) (lo hi : ℚ) : ℕ :=
  (times.filter (fun t => decide (lo ≤ t) && decide (t < hi))).length

/-! ## Export Sink: the serde-derived JSON layout (src/main.rs lines 51-84,
396-411)

`PingResult` annotates `rtt_ms` and `timestamp` with
`#[serde(skip_serializing_if = "Option::is_none")]`, so those keys are
omitted when the option is `None`.  `PingStatistics` carries no such
attribute on any field, so serde serializes its `Option` fields as JSON
`null` when absent.  The model below renders each struct as its ordered list
of emitted key/value pairs. -/

/-- A JSON value (numbers carried exactly). -/
inductive Json where
  | null
  | bool (b : Bool)
  | num (x : ℝ)
  | str (s : String)
  | arr (xs : List Json)
  | obj (fields : List (String × Json))

/-- Serde's serialization of an `Option` field without a skip attribute:
`null` when absent. -/
def jopt : Option ℚ → Json
  | none => Json.null
  | some q => Json.num (q : ℝ)

/-- As `jopt`, for the real-valued `std_dev_ms` field. -/
def joptR : Option ℝ → Json
  | none => Json.null
  | some x => Json.num x

/-- The ordered key/value pairs serde emits for a `PingResult` (lines 51-59):
`rtt_ms` and `timestamp` are skipped when `None`. -/
def pingResultJsonFields (r : PingResult) : List (String × Json) :=
  [("seq", Json.num (r.seq : ℝ))] ++
  (match r.rtt_ms with
   | none => []
   | some v => [("rtt_ms", Json.num (v : ℝ))]) ++
  [("success", Json.bool r.success)] ++
  (match r.timestamp with
   | none => []
   | some ts => [("timestamp", Json.str ts)])

/-- The ordered key/value pairs serde emits for a `PingStatistics` (lines
62-72): all eight fields are always emitted; the optional ones as `null`
when absent. -/
def pingStatisticsJsonFields (st : PingStatistics) : List (String × Json) :=
  [("min_ms", jopt st.min_ms), ("max_ms", jopt st.max_ms),
   ("avg_ms", jopt st.avg_ms), ("std_dev_ms", joptR st.std_dev_ms),
   ("packets_sent", Json.num (st.packets_sent : ℝ)),
   ("packets_received", Json.num (st.packets_received : ℝ)),
   ("packets_lost", Json.num (st.packets_lost : ℝ)),
   ("packet_loss_percent", Json.num ((st.packet_loss_percent : ℚ) : ℝ))]

/-- The `PingReport` struct (src/main.rs lines 75-84). -/
structure PingReport where
  host : String
  ip_address : String
  timestamp_start : String
  timestamp_end : String
  timeout_seconds : ℕ
  results : List PingResult
  statistics : PingStatistics

/-- `export_json` (src/main.rs lines 396-411): the JSON tree serde produces
for a whole report. -/
def export_json (rep : PingReport) : Json :=
  Json.obj
    [("host", Json.str rep.host), ("ip_address", Json.str rep.ip_address),
     ("timestamp_start", Json.str rep.timestamp_start),
     ("timestamp_end", Json.str rep.timestamp_end),
     ("timeout_seconds", Json.num (rep.timeout_seconds : ℝ)),
     ("results", Json.arr (rep.results.map (fun r => Json.obj (pingResultJsonFields r)))),
     ("statistics", Json.obj (pingStatisticsJsonFields rep.statistics))]

/-- The folded sum fits in 16 bits. -/
theorem foldCarries_le (s : Nat) : foldCarries s ≤ 65535 := by
  induction s using Nat.strong_induction_on with
  | _ s ih =>
    rw [foldCarries]
    split
    · next h => exact ih _ (by omega)
    · next h => omega

/-- Folding never increases the sum. -/
theorem foldCarries_le_self (s : Nat) : foldCarries s ≤ s := by
  induction s using Nat.strong_induction_on with
  | _ s ih =>
    rw [foldCarries]
    split
    · next h => exact le_trans (ih _ (by omega)) (by omega)
    · next h => exact le_refl s

/-- Folding preserves the value modulo `65535` (since `65536 ≡ 1`). -/
theorem foldCarries_mod (s : Nat) : foldCarries s % 65535 = s % 65535 := by
  induction s using Nat.strong_induction_on with
  | _ s ih =>
    rw [foldCarries]
    split
    · next h =>
      rw [ih _ (by omega)]
      omega
    · next h => rfl

/-- Folding preserves positivity. -/
theorem foldCarries_pos (s : Nat) (hs : 0 < s) : 0 < foldCarries s := by
  induction s using Nat.strong_induction_on with
  | _ s ih =>
    rw [foldCarries]
    split
    · next h => exact ih _ (by omega) (by omega)
    · next h => exact hs

/-- A positive multiple of `65535` folds to exactly `65535`. -/
theorem foldCarries_eq_full (s : Nat) (hs : 0 < s) (hmod : s % 65535 = 0) :
    foldCarries s = 65535 := by
  have h1 := foldCarries_le s
  have h2 := foldCarries_mod s
  have h3 := foldCarries_pos s hs
  omega

/-- The complement step, written arithmetically: since the folded sum fits in
16 bits, `!sum as u16` is `65535 - folded`. -/
theorem checksum_eq_sub (data : List Nat) :
    checksum data = 65535 - foldCarries (wordSum data) := by
  have h := foldCarries_le (wordSum data)
  unfold checksum
  omega

/-- C2: for every byte buffer whose checksum field (bytes 2-3 of the ICMP
header) is zero, inserting `checksum buffer` into that field yields a buffer
whose 16-bit one's-complement word sum folds to `0xFFFF`. -/
theorem checksum_verification_identity (b0 b1 : Nat) (rest : List Nat) :
    foldCarries (wordSum
      (set_checksum (b0 :: b1 :: 0 :: 0 :: rest)
        (checksum (b0 :: b1 :: 0 :: 0 :: rest)))) = 65535 := by
  have hset : set_checksum (b0 :: b1 :: 0 :: 0 :: rest)
      (checksum (b0 :: b1 :: 0 :: 0 :: rest)) =
      b0 :: b1 :: (checksum (b0 :: b1 :: 0 :: 0 :: rest) / 256) ::
        (checksum (b0 :: b1 :: 0 :: 0 :: rest) % 256) :: rest := rfl
  rw [hset]
  have hc := checksum_eq_sub (b0 :: b1 :: 0 :: 0 :: rest)
  have hle := foldCarries_le (wordSum (b0 :: b1 :: 0 :: 0 :: rest))
  have hself := foldCarries_le_self (wordSum (b0 :: b1 :: 0 :: 0 :: rest))
  have hmod := foldCarries_mod (wordSum (b0 :: b1 :: 0 :: 0 :: rest))
  have hw0 : wordSum (b0 :: b1 :: 0 :: 0 :: rest) =
      (b0 * 256 + b1) + ((0 * 256 + 0) + wordSum rest) := rfl
  have hw1 : wordSum (b0 :: b1 :: (checksum (b0 :: b1 :: 0 :: 0 :: rest) / 256) ::
      (checksum (b0 :: b1 :: 0 :: 0 :: rest) % 256) :: rest) =
      (b0 * 256 + b1) + ((checksum (b0 :: b1 :: 0 :: 0 :: rest) / 256 * 256 +
        checksum (b0 :: b1 :: 0 :: 0 :: rest) % 256) + wordSum rest) := rfl
  rw [hw1]
  apply foldCarries_eq_full
  · omega
  · omega

/-- Stepping the pair loop past two leading bytes: the loop at index `i + 2`
with bound `bound + 2` on `d1 :: d2 :: rest` behaves as the loop at index `i`
with bound `bound` on `rest`. -/
theorem wordLoopGo_shift (d1 d2 : Nat) (rest : List Nat) :
    ∀ n bound i sum, bound - i = n →
      wordLoopGo (d1 :: d2 :: rest) (bound + 2) (i + 2) sum =
        wordLoopGo rest bound i sum := by
  intro n
  induction n using Nat.strong_induction_on with
  | _ n ih =>
    intro bound i sum hn
    rw [wordLoopGo, wordLoopGo]
    by_cases hib : i < bound
    · simp only [show (i + 2 < bound + 2) = (i < bound) by simp, hib, if_pos]
      have h1 : (d1 :: d2 :: rest).get? (i + 2) = rest.get? i := rfl
      have h2 : (d1 :: d2 :: rest).get? (i + 2 + 1) = rest.get? (i + 1) := rfl
      rw [h1, h2]
      cases hg1 : rest.get? i with
      | none => rfl
      | some b1 =>
        cases hg2 : rest.get? (i + 1) with
        | none => rfl
        | some b2 =>
          exact ih (bound - (i + 2)) (by omega) bound (i + 2) _ rfl
    · simp only [show (i + 2 < bound + 2) = (i < bound) by simp, hib, if_neg,
        not_false_iff]

/-- On a nonempty list with the in-range bound `length - 1`, the pair loop
terminates normally and computes `evenSum`. -/
theorem wordLoopGo_evenSum :
    ∀ n (data : List Nat), data.length = n → data ≠ [] →
      ∀ sum, wordLoopGo data (data.length - 1) 0 sum = some (sum + evenSum data) := by
  intro n
  induction n using Nat.strong_induction_on with
  | _ n ih =>
    intro data hlen hne sum
    match data with
    | [] => exact absurd rfl hne
    | [b] =>
      rw [wordLoopGo]
      simp [evenSum]
    | d1 :: d2 :: rest =>
      rw [wordLoopGo]
      have hb : 0 < (d1 :: d2 :: rest).length - 1 := by simp
      simp only [hb, if_pos]
      have h1 : (d1 :: d2 :: rest).get? 0 = some d1 := rfl
      have h2 : (d1 :: d2 :: rest).get? 1 = some d2 := rfl
      rw [h1, h2]
      show wordLoopGo (d1 :: d2 :: rest) ((d1 :: d2 :: rest).length - 1) (0 + 2)
          (sum + (d1 * 256 + d2)) = some (sum + evenSum (d1 :: d2 :: rest))
      match rest with
      | [] =>
        rw [wordLoopGo]
        simp [evenSum]
      | r1 :: rs =>
        have hlb : (d1 :: d2 :: r1 :: rs).length - 1 =
            ((r1 :: rs).length - 1) + 2 := by simp
        rw [hlb,
          wordLoopGo_shift d1 d2 (r1 :: rs) ((r1 :: rs).length - 1)
            ((r1 :: rs).length - 1) 0 (sum + (d1 * 256 + d2)) rfl,
          ih (r1 :: rs).length (by simp at hlen ⊢; omega) (r1 :: rs) rfl
            (by simp) (sum + (d1 * 256 + d2))]
        simp only [evenSum, Option.some.injEq]
        omega

/-- For even-length input the word sum is just the pair sum. -/
theorem wordSum_even :
    ∀ n (data : List Nat), data.length = n → data.length % 2 = 0 →
      wordSum data = evenSum data := by
  intro n
  induction n using Nat.strong_induction_on with
  | _ n ih =>
    intro data hlen hpar
    match data with
    | [] => rfl
    | [b] => simp at hpar
    | d1 :: d2 :: rest =>
      have : wordSum rest = evenSum rest := by
        refine ih rest.length ?_ rest rfl ?_
        · simp at hlen ⊢; omega
        · simp at hpar ⊢; omega
      simp [wordSum, evenSum, this]

/-- For odd-length input the word sum is the pair sum plus the trailing byte
shifted into the high half. -/
theorem wordSum_odd :
    ∀ n (data : List Nat) (b : Nat), data.length = n → data.length % 2 = 1 →
      data.get? (data.length - 1) = some b →
      wordSum data = evenSum data + b * 256 := by
  intro n
  induction n using Nat.strong_induction_on with
  | _ n ih =>
    intro data b hlen hpar hget
    match data with
    | [] => simp at hpar
    | [a] =>
      simp only [List.length_singleton] at hget
      have : (([a] : List Nat)).get? 0 = some a := rfl
      rw [this] at hget
      cases hget
      simp [wordSum, evenSum]
    | d1 :: d2 :: rest =>
      have hrne : rest ≠ [] := by
        intro hcon
        subst hcon
        simp at hpar
      have hget2 : rest.get? (rest.length - 1) = some b := by
        have hl : (d1 :: d2 :: rest).length - 1 = (rest.length - 1) + 2 := by
          cases rest with
          | nil => exact absurd rfl hrne
          | cons r rs => simp
        rw [hl] at hget
        exact hget
      have : wordSum rest = evenSum rest + b * 256 := by
        refine ih rest.length ?_ rest b rfl ?_ hget2
        · simp at hlen ⊢; omega
        · simp at hpar ⊢; omega
      simp [wordSum, evenSum, this]
      ring

/-- C10: the `checksum` summation loop is total only for nonempty input.  On
the empty slice the `usize` bound `data.len() - 1` wraps and the function
panics (`none`); on any nonempty slice (of machine-representable length) it
terminates normally with the value of `checksum`; and the program's only call
site, `create_icmp_packet`, always passes a fixed 64-byte buffer, so the panic
is unreachable from the program's own calls. -/
theorem checksum_total_only_nonempty :
    checksumRun [] = none ∧
    (∀ data : List Nat, data ≠ [] → data.length < 18446744073709551616 →
      checksumRun data = some (checksum data)) ∧
    (∀ s i : Nat, (icmp_prechecksum s i).length = 64 ∧
      checksumRun (icmp_prechecksum s i) = some (checksum (icmp_prechecksum s i))) := by
  have hmain : ∀ data : List Nat, data ≠ [] → data.length < 18446744073709551616 →
      checksumRun data = some (checksum data) := by
    intro data hne hlen
    have hb : (data.length + 18446744073709551615) % 18446744073709551616 =
        data.length - 1 := by
      have : 0 < data.length := List.length_pos.mpr hne
      omega
    unfold checksumRun
    rw [hb, wordLoopGo_evenSum data.length data rfl hne 0]
    rcases Nat.even_or_odd data.length with hpar | hpar
    · have hp : data.length % 2 = 0 := Nat.even_iff.mp hpar
      have hp1 : data.length % 2 ≠ 1 := by omega
      have hw := wordSum_even data.length data rfl hp
      simp [checksum, hw, hp1]
    · have hp : data.length % 2 = 1 := Nat.odd_iff.mp hpar
      have hlt : data.length - 1 < data.length := by
        have : 0 < data.length := List.length_pos.mpr hne
        omega
      obtain ⟨b, hgetb⟩ : ∃ b, data.get? (data.length - 1) = some b := by
        rw [List.get?_eq_get hlt]
        exact ⟨_, rfl⟩
      have hw := wordSum_odd data.length data b rfl hp hgetb
      have hgetb2 : data[data.length - 1]? = some b := by
        rw [← List.get?_eq_getElem?]
        exact hgetb
      simp [checksum, hw, hp, hgetb2]
  refine ⟨?_, hmain, ?_⟩
  · rw [checksumRun, wordLoopGo]
    simp
  · intro s i
    have hlen : (icmp_prechecksum s i).length = 64 := by
      simp [icmp_prechecksum]
    exact ⟨hlen, hmain _ (by simp [icmp_prechecksum]) (by rw [hlen]; omega)⟩

/-- Concrete instantiation of the nonempty case of
`checksum_total_only_nonempty`: on the three-byte buffer `[1, 2, 3]` the loop
terminates normally with the checksum value. -/
theorem checksum_total_only_nonempty_witness :
    checksumRun [1, 2, 3] = some (checksum [1, 2, 3]) :=
  checksum_total_only_nonempty.2.1 [1, 2, 3] (by decide) (by norm_num)

/-- C4: the packet counters of `calculate_statistics` satisfy the conservation
invariant and the loss-percentage formula: sent equals the attempted total,
received equals the number of successes, lost is their difference (so sent =
received + lost), and the loss percentage is `(total - successes) / total *
100` rounded to two decimal places. -/
theorem calculate_statistics_counters (times : List ℚ) (total : ℕ)
    (htotal : 1 ≤ total) (hle : times.length ≤ total) :
    (calculate_statistics times total).packets_sent = total ∧
    (calculate_statistics times total).packets_received = times.length ∧
    (calculate_statistics times total).packets_lost = total - times.length ∧
    (calculate_statistics times total).packets_sent =
      (calculate_statistics times total).packets_received +
        (calculate_statistics times total).packets_lost ∧
    (calculate_statistics times total).packet_loss_percent =
      roundTo2 (((total - times.length : ℕ) : ℚ) / (total : ℚ) * 100) := by
  have hne : (total : ℚ) ≠ 0 := Nat.cast_ne_zero.mpr (by omega)
  cases times with
  | nil =>
    have hnil : calculate_statistics [] total =
        { min_ms := none, max_ms := none, avg_ms := none, std_dev_ms := none,
          packets_sent := total, packets_received := 0, packets_lost := total,
          packet_loss_percent := 100 } := by
      simp [calculate_statistics]
    rw [hnil]
    refine ⟨rfl, rfl, by simp, by simp, ?_⟩
    have h1 : ((total - List.length ([] : List ℚ) : ℕ) : ℚ) / (total : ℚ) * 100 = 100 := by
      simp only [List.length_nil, Nat.sub_zero]
      field_simp
    rw [h1]
    have hfl : ⌊(100 : ℚ) * 100 + 1 / 2⌋ = 10000 := by
      rw [Int.floor_eq_iff]
      norm_num
    rw [roundTo2, fround, if_pos (show (0 : ℚ) ≤ 100 * 100 by norm_num), hfl]
    norm_num
  | cons t ts =>
    refine ⟨rfl, rfl, rfl, ?_, rfl⟩
    show total = (t :: ts).length + (total - (t :: ts).length)
    omega

/-- Concrete instantiation of `calculate_statistics_counters` at one success
out of two attempts. -/
theorem calculate_statistics_counters_witness :
    (calculate_statistics [(10 : ℚ)] 2).packets_sent = 2 ∧
    (calculate_statistics [(10 : ℚ)] 2).packets_received = [(10 : ℚ)].length ∧
    (calculate_statistics [(10 : ℚ)] 2).packets_lost = 2 - [(10 : ℚ)].length ∧
    (calculate_statistics [(10 : ℚ)] 2).packets_sent =
      (calculate_statistics [(10 : ℚ)] 2).packets_received +
        (calculate_statistics [(10 : ℚ)] 2).packets_lost ∧
    (calculate_statistics [(10 : ℚ)] 2).packet_loss_percent =
      roundTo2 (((2 - [(10 : ℚ)].length : ℕ) : ℚ) / ((2 : ℕ) : ℚ) * 100) :=
  calculate_statistics_counters [(10 : ℚ)] 2 (by norm_num) (by norm_num)

/-- Rounding to two decimals fixes any value that is already an exact
multiple of `1/100` (stated through `n = 100 x`). -/
theorem roundTo2_eq_self (x : ℚ) (h0 : 0 ≤ x) (n : ℤ) (h : x * 100 = (n : ℚ)) :
    roundTo2 x = x := by
  have hhalf : ⌊(1 / 2 : ℚ)⌋ = 0 := by
    rw [Int.floor_eq_iff]
    norm_num
  rw [roundTo2, fround, if_pos (mul_nonneg h0 (by norm_num)), h,
    Int.floor_int_add, hhalf, add_zero, ← h]
  ring

/-- C5: the reference scenario of the spec: five successes with RTTs
`[10, 20, 30, 15, 25]` out of five attempts give min 10.00, max 30.00,
mean 20.00, population standard deviation 7.07 (two-decimal rounding of
`sqrt 50`), no loss. -/
theorem statistics_scenario_five_probes :
    (calculate_statistics [10, 20, 30, 15, 25] 5).min_ms = some 10 ∧
    (calculate_statistics [10, 20, 30, 15, 25] 5).max_ms = some 30 ∧
    (calculate_statistics [10, 20, 30, 15, 25] 5).avg_ms = some 20 ∧
    (calculate_statistics [10, 20, 30, 15, 25] 5).std_dev_ms = some ((707 : ℝ) / 100) ∧
    (calculate_statistics [10, 20, 30, 15, 25] 5).packets_lost = 0 ∧
    (calculate_statistics [10, 20, 30, 15, 25] 5).packet_loss_percent = 0 := by
  refine ⟨?_, ?_, ?_, ?_, rfl, ?_⟩
  · show some (roundTo2 (listMin [10, 20, 30, 15, 25])) = some 10
    rw [show listMin [10, 20, 30, 15, 25] = (10 : ℚ) from by
      norm_num [listMin, min_def]]
    rw [roundTo2_eq_self 10 (by norm_num) 1000 (by norm_num)]
  · show some (roundTo2 (listMax [10, 20, 30, 15, 25])) = some 30
    rw [show listMax [10, 20, 30, 15, 25] = (30 : ℚ) from by
      norm_num [listMax, max_def]]
    rw [roundTo2_eq_self 30 (by norm_num) 3000 (by norm_num)]
  · show some (roundTo2 (([10, 20, 30, 15, 25] : List ℚ).sum /
      (([10, 20, 30, 15, 25] : List ℚ).length : ℚ))) = some 20
    rw [show ([10, 20, 30, 15, 25] : List ℚ).sum /
        (([10, 20, 30, 15, 25] : List ℚ).length : ℚ) = (20 : ℚ) from by norm_num]
    rw [roundTo2_eq_self 20 (by norm_num) 2000 (by norm_num)]
  · have hv : (calculate_statistics [10, 20, 30, 15, 25] 5).std_dev_ms =
        some (roundTo2 (Real.sqrt ((50 : ℚ) : ℝ))) := by
      simp only [calculate_statistics]
      norm_num
    rw [hv, show (((50 : ℚ) : ℝ)) = (50 : ℝ) by norm_num]
    have hsq := Real.sq_sqrt (show (0 : ℝ) ≤ 50 by norm_num)
    have hnn := Real.sqrt_nonneg (50 : ℝ)
    have hlow : (7065 : ℝ) / 1000 ≤ Real.sqrt 50 := by nlinarith
    have hhigh : Real.sqrt 50 < (7075 : ℝ) / 1000 := by nlinarith
    have hfl : ⌊Real.sqrt 50 * 100 + 1 / 2⌋ = 707 := by
      rw [Int.floor_eq_iff]
      constructor
      · push_cast
        nlinarith
      · push_cast
        nlinarith
    rw [roundTo2, fround, if_pos (by positivity), hfl]
    norm_num
  · show roundTo2 ((((5 - ([10, 20, 30, 15, 25] : List ℚ).length : ℕ)) : ℚ) /
      ((5 : ℕ) : ℚ) * 100) = 0
    rw [show ((((5 - ([10, 20, 30, 15, 25] : List ℚ).length : ℕ)) : ℚ) /
        ((5 : ℕ) : ℚ) * 100) = (0 : ℚ) from by norm_num]
    rw [roundTo2_eq_self 0 (by norm_num) 0 (by norm_num)]

/-- Every branch of the loop body appends exactly one result. -/
theorem pingStep_results (ts : String) (seq : ℕ) (o : ProbeOutcome) (st : LoopState) :
    (pingStep ts seq o st).results = st.results ++ [resultOf ts seq o] := by
  cases o <;> rfl

/-- Unfolding one iteration off the back of the loop. -/
theorem pingLoop_succ (identifier : ℕ) (env : ℕ → ProbeOutcome) (tsEnv : ℕ → String)
    (count : ℕ) :
    pingLoop identifier env tsEnv (count + 1) =
      pingStep (tsEnv count) count (env count) (pingLoop identifier env tsEnv count) := by
  unfold pingLoop
  rw [List.range_succ, List.foldl_append, List.foldl_cons, List.foldl_nil]

/-- The sequence numbers recorded by the loop are exactly `0, ..., count-1`,
in order. -/
theorem pingLoop_seqs (identifier : ℕ) (env : ℕ → ProbeOutcome) (tsEnv : ℕ → String) :
    ∀ count, (pingLoop identifier env tsEnv count).results.map PingResult.seq =
      List.range count := by
  intro count
  induction count with
  | zero => rfl
  | succ n ihn =>
    rw [pingLoop_succ, pingStep_results, List.map_append, ihn, List.range_succ]
    cases env n <;> rfl

/-- The result recorded at position `s` is determined by the environment's
outcome for probe `s`. -/
theorem pingLoop_get (identifier : ℕ) (env : ℕ → ProbeOutcome) (tsEnv : ℕ → String) :
    ∀ count s, s < count →
      (pingLoop identifier env tsEnv count).results.get? s =
        some (resultOf (tsEnv s) s (env s)) := by
  intro count
  induction count with
  | zero => omega
  | succ n ihn =>
    intro s hs
    have hlen : (pingLoop identifier env tsEnv n).results.length = n := by
      have := pingLoop_seqs identifier env tsEnv n
      have hm := congrArg List.length this
      simpa using hm
    rw [pingLoop_succ, pingStep_results]
    by_cases hsn : s < n
    · rw [List.get?_append (by omega)]
      exact ihn s hsn
    · have hseq : s = n := by omega
      subst hseq
      have hcat := List.get?_concat_length
        (pingLoop identifier env tsEnv s).results (resultOf (tsEnv s) s (env s))
      rw [hlen] at hcat
      exact hcat

/-- C3: a run with configured probe count `count ≥ 1` that reaches the end of
the loop has exactly `count` results whose sequence numbers are exactly
`0, 1, ..., count - 1` in increasing order, each exactly once, whatever the
individual outcomes were. -/
theorem pingLoop_results_complete (identifier : ℕ) (env : ℕ → ProbeOutcome)
    (tsEnv : ℕ → String) (count : ℕ) (hcount : 1 ≤ count) :
    (pingLoop identifier env tsEnv count).results.length = count ∧
    (pingLoop identifier env tsEnv count).results.map PingResult.seq =
      List.range count := by
  have hs := pingLoop_seqs identifier env tsEnv count
  refine ⟨?_, hs⟩
  have hm := congrArg List.length hs
  simpa using hm

/-- Concrete instantiation of `pingLoop_results_complete`: a two-probe run in
which one probe times out and one fails to send. -/
theorem pingLoop_results_complete_witness :
    (pingLoop 7 (fun s => if s = 0 then ProbeOutcome.timeout else ProbeOutcome.sendErr)
      (fun _ => "ts") 2).results.length = 2 ∧
    (pingLoop 7 (fun s => if s = 0 then ProbeOutcome.timeout else ProbeOutcome.sendErr)
      (fun _ => "ts") 2).results.map PingResult.seq = List.range 2 :=
  pingLoop_results_complete 7 _ _ 2 (by norm_num)

/-- C8: a probe whose transmit fails still gets a `PingResult` with its
sequence number, `success = false` and no RTT; the loop is not aborted, so
the run still records all `count` probes. -/
theorem send_failure_not_fatal (identifier : ℕ) (env : ℕ → ProbeOutcome)
    (tsEnv : ℕ → String) (count s : ℕ) (hs : s < count)
    (hsend : env s = ProbeOutcome.sendErr) :
    (pingLoop identifier env tsEnv count).results.get? s =
      some { seq := s, rtt_ms := none, success := false,
             timestamp := some (tsEnv s) } ∧
    (pingLoop identifier env tsEnv count).results.length = count := by
  constructor
  · rw [pingLoop_get identifier env tsEnv count s hs, hsend]
    rfl
  · have hm := congrArg List.length (pingLoop_seqs identifier env tsEnv count)
    simpa using hm

/-- Concrete instantiation of `send_failure_not_fatal`: probe 0 of a
two-probe run fails to send, is recorded as lost, and the run continues. -/
theorem send_failure_not_fatal_witness :
    (pingLoop 7 (fun s => if s = 0 then ProbeOutcome.sendErr else ProbeOutcome.timeout)
      (fun _ => "ts") 2).results.get? 0 =
      some { seq := 0, rtt_ms := none, success := false, timestamp := some "ts" } ∧
    (pingLoop 7 (fun s => if s = 0 then ProbeOutcome.sendErr else ProbeOutcome.timeout)
      (fun _ => "ts") 2).results.length = 2 :=
  send_failure_not_fatal 7 _ _ 2 0 (by norm_num) rfl

/-- C1 fails on the code: the receive path binds the reply packet as `_`
(line 537) and never compares its identifier or sequence number with the
request's.  Here the process identifier is 7 but the reply carries identifier
9999 (and sequence number 3, not 0) — e.g. a concurrent system ping — and the
probe is nonetheless recorded as a success with that reply's timing, and its
RTT enters the `times` vector feeding the statistics. -/
theorem reply_with_foreign_identifier_counted_as_success :
    (9999 : ℕ) ≠ 7 ∧
    (pingLoop 7 (fun _ => ProbeOutcome.reply { ident := 9999, seqNo := 3, rtt := 5 })
        (fun _ => "ts") 1).results.get? 0 =
      some { seq := 0, rtt_ms := some 5, success := true, timestamp := some "ts" } ∧
    (pingLoop 7 (fun _ => ProbeOutcome.reply { ident := 9999, seqNo := 3, rtt := 5 })
        (fun _ => "ts") 1).times = [5] := by
  refine ⟨by norm_num, ?_, ?_⟩
  · rw [pingLoop_get 7 _ _ 1 0 (by norm_num)]
    have h5 : roundTo2 (5 : ℚ) = 5 := roundTo2_eq_self 5 (by norm_num) 500 (by norm_num)
    simp [resultOf, h5]
  · rw [show (1 : ℕ) = 0 + 1 from rfl, pingLoop_succ]
    rfl

/-- Appending one RTT grows the accumulator to `max` of the old value and
`1.2` times the new RTT. -/
theorem dynMax_append (l : List ℚ) (r : ℚ) :
    dynMax (l ++ [r]) = max (dynMax l) (r * (6 / 5)) := by
  rw [dynMax, dynMax, List.foldl_append, List.foldl_cons, List.foldl_nil]

/-- C7: the bar-scale accumulator of the probe loop is exactly `dynMax` of
the successful RTTs seen so far; it never shrinks as results arrive; and at
every point it equals the running maximum of the seed `50.0` and `1.2` times
each successful RTT. -/
theorem dynamic_max_scale_behaviour :
    (∀ (identifier : ℕ) (env : ℕ → ProbeOutcome) (tsEnv : ℕ → String) (count : ℕ),
      (pingLoop identifier env tsEnv count).max_rtt_estimate =
        dynMax (pingLoop identifier env tsEnv count).times) ∧
    (∀ (l : List ℚ) (r : ℚ), dynMax l ≤ dynMax (l ++ [r])) ∧
    (∀ l : List ℚ, dynMax l = List.foldl max 50 (l.map (fun r => r * (6 / 5)))) := by
  refine ⟨?_, ?_, ?_⟩
  · intro identifier env tsEnv count
    induction count with
    | zero => rfl
    | succ n ihn =>
      rw [pingLoop_succ]
      cases henv : env n with
      | reply r =>
        show max (pingLoop identifier env tsEnv n).max_rtt_estimate (r.rtt * (6 / 5)) =
          dynMax ((pingLoop identifier env tsEnv n).times ++ [r.rtt])
        rw [ihn, dynMax_append]
      | sendErr => exact ihn
      | timeout => exact ihn
      | recvErr => exact ihn
  · intro l r
    rw [dynMax_append]
    exact le_max_left _ _
  · intro l
    rw [dynMax, List.foldl_map]

/-- Unfolding one element of a bucket count. -/
theorem bucketCount_cons (t : ℚ) (ts : List ℚ) (lo hi : ℚ) :
    bucketCount (t :: ts) lo hi =
      bucketCount ts lo hi + (if lo ≤ t ∧ t < hi then 1 else 0) := by
  by_cases h : lo ≤ t ∧ t < hi
  · have hb : (decide (lo ≤ t) && decide (t < hi)) = true := by
      simp [h.1, h.2]
    rw [bucketCount, bucketCount, List.filter_cons, hb, if_pos rfl,
      List.length_cons, if_pos h]
  · have hb : ¬ ((decide (lo ≤ t) && decide (t < hi)) = true) := by
      simpa [Bool.and_eq_true] using h
    rw [bucketCount, bucketCount, List.filter_cons, if_neg hb, if_neg h,
      Nat.add_zero]

/-- C9: the five histogram buckets `[0,10)`, `[10,20)`, `[20,50)`, `[50,100)`
and `[100, f64::MAX)` partition the successful RTTs: their counts sum to the
number of successful probes (every RTT — a nonnegative finite `f64` — falls
in exactly one bucket). -/
theorem histogram_buckets_partition (times : List ℚ)
    (hdom : ∀ t ∈ times, 0 ≤ t ∧ t < f64MAX) :
    bucketCount times 0 10 + bucketCount times 10 20 + bucketCount times 20 50 +
      bucketCount times 50 100 + bucketCount times 100 f64MAX = times.length := by
  induction times with
  | nil => rfl
  | cons t ts ih =>
    have ht := hdom t (List.mem_cons_self t ts)
    have hts : ∀ x ∈ ts, 0 ≤ x ∧ x < f64MAX :=
      fun x hx => hdom x (List.mem_cons_of_mem t hx)
    have hsum := ih hts
    rw [bucketCount_cons, bucketCount_cons, bucketCount_cons, bucketCount_cons,
      bucketCount_cons, List.length_cons]
    rcases lt_or_le t 10 with h1 | h1
    · rw [if_pos ⟨ht.1, h1⟩, if_neg (by rintro ⟨ha, _⟩; linarith),
        if_neg (by rintro ⟨ha, _⟩; linarith), if_neg (by rintro ⟨ha, _⟩; linarith),
        if_neg (by rintro ⟨ha, _⟩; linarith)]
      omega
    · rcases lt_or_le t 20 with h2 | h2
      · rw [if_neg (by rintro ⟨_, hb⟩; linarith), if_pos ⟨h1, h2⟩,
          if_neg (by rintro ⟨ha, _⟩; linarith), if_neg (by rintro ⟨ha, _⟩; linarith),
          if_neg (by rintro ⟨ha, _⟩; linarith)]
        omega
      · rcases lt_or_le t 50 with h3 | h3
        · rw [if_neg (by rintro ⟨_, hb⟩; linarith), if_neg (by rintro ⟨_, hb⟩; linarith),
            if_pos ⟨h2, h3⟩, if_neg (by rintro ⟨ha, _⟩; linarith),
            if_neg (by rintro ⟨ha, _⟩; linarith)]
          omega
        · rcases lt_or_le t 100 with h4 | h4
          · rw [if_neg (by rintro ⟨_, hb⟩; linarith), if_neg (by rintro ⟨_, hb⟩; linarith),
              if_neg (by rintro ⟨_, hb⟩; linarith), if_pos ⟨h3, h4⟩,
              if_neg (by rintro ⟨ha, _⟩; linarith)]
            omega
          · rw [if_neg (by rintro ⟨_, hb⟩; linarith), if_neg (by rintro ⟨_, hb⟩; linarith),
              if_neg (by rintro ⟨_, hb⟩; linarith), if_neg (by rintro ⟨_, hb⟩; linarith),
              if_pos ⟨h4, ht.2⟩]
            omega

/-- Concrete instantiation of `histogram_buckets_partition`: one RTT per
bucket. -/
theorem histogram_buckets_partition_witness :
    bucketCount [5, 15, 30, 70, 150] 0 10 + bucketCount [5, 15, 30, 70, 150] 10 20 +
      bucketCount [5, 15, 30, 70, 150] 20 50 + bucketCount [5, 15, 30, 70, 150] 50 100 +
      bucketCount [5, 15, 30, 70, 150] 100 f64MAX =
      ([5, 15, 30, 70, 150] : List ℚ).length :=
  histogram_buckets_partition [5, 15, 30, 70, 150] (by norm_num [f64MAX])

/-- C6 fails on the code for the statistics object: `PingStatistics` has no
`skip_serializing_if` attributes, so for a zero-success run (here: no
successes out of one probe) the absent `min_ms` is emitted with value `null`
instead of being omitted. -/
theorem statistics_none_field_emitted_as_null :
    (calculate_statistics [] 1).min_ms = none ∧
    List.lookup "min_ms" (pingStatisticsJsonFields (calculate_statistics [] 1)) =
      some Json.null := by
  have h : (calculate_statistics [] 1).min_ms = none := rfl
  exact ⟨h, by simp [pingStatisticsJsonFields, List.lookup, h, jopt]⟩

/-- C6 amended: in the JSON export, a result's absent `rtt_ms` and
`timestamp` are omitted (and present ones emitted), exactly as claimed; but
the statistics object always emits all eight keys, its absent optional
fields appearing as `null` rather than being omitted. -/
theorem optional_field_serialization :
    (∀ r : PingResult, r.rtt_ms = none → r.timestamp = none →
      (pingResultJsonFields r).map Prod.fst = ["seq", "success"]) ∧
    (∀ (r : PingResult) (v : ℚ) (ts : String), r.rtt_ms = some v → r.timestamp = some ts →
      (pingResultJsonFields r).map Prod.fst = ["seq", "rtt_ms", "success", "timestamp"]) ∧
    (∀ st : PingStatistics,
      (pingStatisticsJsonFields st).map Prod.fst =
        ["min_ms", "max_ms", "avg_ms", "std_dev_ms", "packets_sent",
         "packets_received", "packets_lost", "packet_loss_percent"]) ∧
    (∀ st : PingStatistics, st.min_ms = none →
      List.lookup "min_ms" (pingStatisticsJsonFields st) = some Json.null) := by
  refine ⟨?_, ?_, ?_, ?_⟩
  · intro r h1 h2
    simp [pingResultJsonFields, h1, h2]
  · intro r v ts h1 h2
    simp [pingResultJsonFields, h1, h2]
  · intro st
    rfl
  · intro st h
    simp [pingStatisticsJsonFields, List.lookup, h, jopt]

/-- Concrete instantiation of `optional_field_serialization`: a timed-out
result omits both optional keys, a successful one emits them, and a
zero-success statistics object emits `min_ms` as `null`. -/
theorem optional_field_serialization_witness :
    (pingResultJsonFields
      { seq := 0, rtt_ms := none, success := false, timestamp := none }).map
        Prod.fst = ["seq", "success"] ∧
    (pingResultJsonFields
      { seq := 1, rtt_ms := some 5, success := true, timestamp := some "t" }).map
        Prod.fst = ["seq", "rtt_ms", "success", "timestamp"] ∧
    List.lookup "min_ms" (pingStatisticsJsonFields (calculate_statistics [] 1)) =
      some Json.null :=
  ⟨optional_field_serialization.1 _ rfl rfl,
   optional_field_serialization.2.1 _ 5 "t" rfl rfl,
   optional_field_serialization.2.2.2 _ rfl⟩